import Mathlib

/-
Verification of the field-masking engine of yandex/neurosupport-api
(src/yandex_neurosupport/utils.py, function mask_response_fields).

Shallow embedding notes:
- The input tree (decoded JSON-like data) is the inductive type Node below:
  mappings with string keys (Python dict, insertion order preserved),
  sequences (Python list), string scalars, and opaque scalars (anything
  else: numbers, booleans, None, ...), modelled by a type parameter.
- Python str.lower is modelled by String.toLower (per-character folding).
- The source builds one case-insensitive regex that is an alternation of
  re.escape-d literal substrings and applies regex.sub(placeholder, s).
  Since every alternative is escaped, the regex matches exactly the
  literal substrings; Python re alternation is leftmost-first: the scan
  moves left to right and at each position the first alternative (in the
  order given) that matches is replaced, then the scan resumes after the
  match (non-overlapping). The matching side is modelled by matchAt below,
  a literal multi-pattern matcher with first-pattern-wins semantics.
- The replacement side of sub treats the placeholder as a template:
  backslash escape sequences denote characters, group references insert
  the matched text (the escaped alternation has no capture group, so only
  group 0 is valid), and an invalid escape or group reference raises
  re.error at every sub call, even when nothing in the subject matches.
  parseTemplate and subE model this, and maskRecursiveE threads the error
  through the traversal exactly as the source lets the exception
  propagate. For a placeholder without a backslash the template inserts
  the placeholder verbatim; substChars and maskString implement that
  literal-replacement special case, and mask_response_fieldsE is proven to
  coincide with Except.ok of mask_response_fields whenever the placeholder
  has no backslash (maskRecursiveE_refines).
- The source filters falsy (empty) entries out of values_to_mask before
  compiling the regex, so every compiled alternative is non-empty and
  every match consumes at least one character.
-/

namespace Neurosupport

/-- Tree of decoded response data: mappings, sequences, strings, and opaque
scalars of type a. -/
inductive Node (a : Type) where
  | obj : List (String × Node a) → Node a
  | arr : List (Node a) → Node a
  | str : String → Node a
  | scalar : a → Node a

/-- Case-insensitive prefix test on character lists (models the effect of
re.IGNORECASE on an escaped literal alternative). -/
def ciPrefix : List Char → List Char → Bool
  | [], _ => true
  | _ :: _, [] => false
  | p :: ps, c :: cs => (p.toLower == c.toLower) && ciPrefix ps cs

/-- First pattern of the list (in order) that matches case-insensitively at
the start of cs; returns the length of that pattern. Models leftmost-first
alternation of the compiled regex at one position. -/
def matchAt (pats : List String) (cs : List Char) : Option Nat :=
  match pats with
  | [] => none
  | p :: rest => if ciPrefix p.data cs then some p.data.length else matchAt rest cs

/-- Fuelled left-to-right scanner: at each position, if some alternative
matches, emit the placeholder and resume after the match; otherwise emit
the character. Fuel (one unit per consumed character) makes the recursion
structural so that concrete inputs evaluate by kernel reduction. -/
def substCharsAux (pats : List String) (ph : List Char) : Nat → List Char → List Char
  | _, [] => []
  | 0, cs => cs
  | fuel + 1, c :: rest =>
    match matchAt pats (c :: rest) with
    | some n => ph ++ substCharsAux pats ph fuel (rest.drop (n - 1))
    | none => c :: substCharsAux pats ph fuel rest

/-- Replace every non-overlapping case-insensitive occurrence of any of the
patterns, scanning left to right, inserting the replacement text verbatim:
the semantics of regex.sub for a replacement string that contains no
backslash (the general template semantics is subE below). -/
def substChars (pats : List String) (ph : List Char) (cs : List Char) : List Char :=
  substCharsAux pats ph cs.length cs

/-- String-level wrapper of substChars: the literal-replacement special
case of value_mask_regex.sub(placeholder, s), exact for placeholders
without a backslash. -/
def maskString (pats : List String) (ph : String) (s : String) : String :=
  String.mk (substChars pats ph.data s.data)

/-- Python str.lower modelled per character (same folding ciPrefix uses). -/
def lowerStr (s : String) : String :=
  String.mk (s.data.map Char.toLower)

/-- Lowered key list (the source computes the set of k.lower() for k in
keys_to_mask; membership in this list models set membership). -/
def lowerKeysOf (keys : List String) : List String :=
  keys.map lowerStr

/-- Membership test the source performs per mapping key:
k.lower() in lower_keys_to_mask. -/
def keyMasked (lowKeys : List String) (k : String) : Bool :=
  lowKeys.contains (lowerStr k)

/-- Matcher construction: drop falsy (empty) entries; if nothing remains, no
regex is compiled (value_mask_regex is None); otherwise the matcher is the
ordered list of literal alternatives. -/
def buildMatcher (values : List String) : Option (List String) :=
  let filtered := values.filter (fun v => !v.isEmpty)
  if filtered.isEmpty then none else some filtered

mutual

/-- The inner recursive worker _mask_recursive of the source: dict branch,
list branch, str branch (regex substitution when a matcher exists), and the
pass-through branch for every other value. -/
def maskRecursive {a : Type} (lowKeys : List String) (matcher : Option (List String))
    (ph : String) : Node a → Node a
  | Node.obj ps => Node.obj (maskPairs lowKeys matcher ph ps)
  | Node.arr xs => Node.arr (maskElems lowKeys matcher ph xs)
  | Node.str s =>
    match matcher with
    | some pats => Node.str (maskString pats ph s)
    | none => Node.str s
  | Node.scalar v => Node.scalar v

/-- Dict branch of _mask_recursive: for each key/value pair in order, if
k.lower() is in the lowered key set the new value is the placeholder,
otherwise the recursively masked value; the key itself is kept verbatim. -/
def maskPairs {a : Type} (lowKeys : List String) (matcher : Option (List String))
    (ph : String) : List (String × Node a) → List (String × Node a)
  | [] => []
  | (k, v) :: rest =>
    (if keyMasked lowKeys k then (k, Node.str ph)
     else (k, maskRecursive lowKeys matcher ph v)) :: maskPairs lowKeys matcher ph rest

/-- List branch of _mask_recursive: recurse elementwise, order preserved. -/
def maskElems {a : Type} (lowKeys : List String) (matcher : Option (List String))
    (ph : String) : List (Node a) → List (Node a)
  | [] => []
  | x :: rest => maskRecursive lowKeys matcher ph x :: maskElems lowKeys matcher ph rest

end

/-- Top-level mask_response_fields. The source takes keys_to_mask and
values_to_mask as Optional lists and normalizes None to the empty list
(keys_to_mask or []); it lowers the keys once, builds the optional value
regex once, and runs the recursive worker on data. -/
def mask_response_fields {a : Type} (data : Node a)
    (keys_to_mask : Option (List String)) (values_to_mask : Option (List String))
    (placeholder : String) : Node a :=
  let keys := keys_to_mask.getD []
  let values := values_to_mask.getD []
  maskRecursive (lowerKeysOf keys) (buildMatcher values) placeholder data

/-- Default placeholder of the source. -/
def defaultPlaceholder : String := "******"

/-- Case-insensitive occurrence test: some suffix of s starts with p
(used only to state claims about what the regex would or would not find,
for example that the placeholder contains no configured substring). -/
def ciOccurs (p : String) (s : String) : Bool :=
  (List.range (s.data.length + 1)).any (fun i => ciPrefix p.data (s.data.drop i))

/- Replacement-template processing. Python re.sub treats the replacement
string as a template: escape sequences denote characters, numeric and
g-bracketed references insert group text, and an invalid escape or group
reference raises re.error at the sub call, even when nothing matches. The
compiled pattern here is an alternation of re.escape-d literals, which
contains no capture group, so the only valid group reference is group 0,
the whole match. The following definitions model sre_parse.parse_template
specialised to a zero-group pattern. -/

/-- One parsed piece of a replacement template: literal text, or a
reference to group 0 (the matched text). -/
inductive TmplItem where
  | lit : List Char → TmplItem
  | group : TmplItem

/-- Octal digit test. -/
def isOctDigit (c : Char) : Bool := ('0' ≤ c) && (c ≤ '7')

/-- Numeric value of a digit character. -/
def octVal (c : Char) : Nat := c.toNat - 48

/-- The fixed escape table of the template parser: a, b, f, n, r, t, v and
the backslash itself. -/
def escCharMap (c : Char) : Option Char :=
  if c = 'a' then some (Char.ofNat 7)
  else if c = 'b' then some (Char.ofNat 8)
  else if c = 'f' then some (Char.ofNat 12)
  else if c = 'n' then some (Char.ofNat 10)
  else if c = 'r' then some (Char.ofNat 13)
  else if c = 't' then some (Char.ofNat 9)
  else if c = 'v' then some (Char.ofNat 11)
  else if c = '\\' then some '\\'
  else none

/-- Split a character list at the first closing angle bracket (used for the
g-bracketed group-name syntax); none when it is missing. -/
def takeUntilGt : List Char → Option (List Char × List Char)
  | [] => none
  | c :: rest =>
    if c = '>' then some ([], rest)
    else
      match takeUntilGt rest with
      | none => none
      | some (name, rem) => some (c :: name, rem)

/-- Parse one escape sequence of a replacement template (the characters
after a backslash), for a pattern with zero capture groups: bracketed group
names must reference group 0; a numeric reference is either a three-octal
digit character escape or an invalid group reference (every group number
from 1 to 99 exceeds the zero groups of the pattern); octal escapes after a
zero; the fixed escape table; unknown letter escapes are errors and unknown
non-letter escapes are kept as the two literal characters. -/
def parseEscape : List Char → Except String (TmplItem × List Char)
  | [] => Except.error "bad escape (end of pattern)"
  | e :: rest =>
    if e = 'g' then
      match rest with
      | '<' :: rest2 =>
        match takeUntilGt rest2 with
        | none => Except.error "missing >, unterminated name"
        | some (name, rem) =>
          if name.isEmpty then Except.error "missing group name"
          else if name.all Char.isDigit then
            if name.all (fun c => c = '0') then Except.ok (TmplItem.group, rem)
            else Except.error "invalid group reference"
          else Except.error "bad character in group name"
      | _ => Except.error "missing <"
    else if e = '0' then
      match rest with
      | d1 :: rest2 =>
        if isOctDigit d1 then
          match rest2 with
          | d2 :: rest3 =>
            if isOctDigit d2 then
              Except.ok (TmplItem.lit [Char.ofNat (octVal d1 * 8 + octVal d2)], rest3)
            else Except.ok (TmplItem.lit [Char.ofNat (octVal d1)], rest2)
          | [] => Except.ok (TmplItem.lit [Char.ofNat (octVal d1)], [])
        else Except.ok (TmplItem.lit [Char.ofNat 0], rest)
      | [] => Except.ok (TmplItem.lit [Char.ofNat 0], [])
    else if e.isDigit then
      match rest with
      | d2 :: rest2 =>
        if d2.isDigit then
          match rest2 with
          | d3 :: rest3 =>
            if isOctDigit e && isOctDigit d2 && isOctDigit d3 then
              if octVal e * 64 + octVal d2 * 8 + octVal d3 > 255 then
                Except.error "octal escape value outside of range 0-0o377"
              else
                Except.ok (TmplItem.lit [Char.ofNat (octVal e * 64 + octVal d2 * 8 + octVal d3)],
                  rest3)
            else Except.error "invalid group reference"
          | [] => Except.error "invalid group reference"
        else Except.error "invalid group reference"
      | [] => Except.error "invalid group reference"
    else
      match escCharMap e with
      | some ch => Except.ok (TmplItem.lit [ch], rest)
      | none =>
        if e.isAlpha then Except.error "bad escape"
        else Except.ok (TmplItem.lit ['\\', e], rest)

/-- Fuelled template parser: literal characters are copied, a backslash
starts an escape sequence. Every step consumes at least one character, so
fuel equal to the length never runs out. -/
def parseTemplateAux : Nat → List Char → Except String (List TmplItem)
  | _, [] => Except.ok []
  | 0, _ :: _ => Except.error "out of fuel"
  | fuel + 1, c :: rest =>
    if c = '\\' then
      match parseEscape rest with
      | Except.error e => Except.error e
      | Except.ok (item, rem) =>
        match parseTemplateAux fuel rem with
        | Except.error e => Except.error e
        | Except.ok items => Except.ok (item :: items)
    else
      match parseTemplateAux fuel rest with
      | Except.error e => Except.error e
      | Except.ok items => Except.ok (TmplItem.lit [c] :: items)

/-- Parse a replacement template (the placeholder), as the sub call does
once per invocation, before any matching. -/
def parseTemplate (ph : List Char) : Except String (List TmplItem) :=
  parseTemplateAux ph.length ph

/-- Expand a parsed template at one match: literal pieces are copied and
group-0 references insert the matched text of the subject. -/
def expandTemplate (matched : List Char) : List TmplItem → List Char
  | [] => []
  | TmplItem.lit l :: rest => l ++ expandTemplate matched rest
  | TmplItem.group :: rest => matched ++ expandTemplate matched rest

/-- Template-aware left-to-right scanner: at a match of length n the
expansion of the template at the matched text is emitted and the scan
resumes after the match. -/
def substTCharsAux (pats : List String) (items : List TmplItem) :
    Nat → List Char → List Char
  | _, [] => []
  | 0, cs => cs
  | fuel + 1, c :: rest =>
    match matchAt pats (c :: rest) with
    | some n =>
      expandTemplate ((c :: rest).take n) items ++
        substTCharsAux pats items fuel (rest.drop (n - 1))
    | none => c :: substTCharsAux pats items fuel rest

/-- Template-aware substitution over a whole character list. -/
def substTChars (pats : List String) (items : List TmplItem) (cs : List Char) : List Char :=
  substTCharsAux pats items cs.length cs

/-- Faithful model of value_mask_regex.sub(placeholder, s): the template is
parsed first (raising re.error for an invalid template, independently of
any match), then every match is replaced by its expansion. -/
def subE (pats : List String) (ph : String) (s : String) : Except String String :=
  match parseTemplate ph.data with
  | Except.error e => Except.error e
  | Except.ok items => Except.ok (String.mk (substTChars pats items s.data))

mutual

/-- Error-aware variant of _mask_recursive: identical traversal, with the
re.error of an invalid replacement template propagated from each sub call
on a string node, as the source lets the exception escape. -/
def maskRecursiveE {a : Type} (lowKeys : List String) (matcher : Option (List String))
    (ph : String) : Node a → Except String (Node a)
  | Node.obj ps =>
    match maskPairsE lowKeys matcher ph ps with
    | Except.error e => Except.error e
    | Except.ok qs => Except.ok (Node.obj qs)
  | Node.arr xs =>
    match maskElemsE lowKeys matcher ph xs with
    | Except.error e => Except.error e
    | Except.ok ys => Except.ok (Node.arr ys)
  | Node.str s =>
    match matcher with
    | some pats =>
      match subE pats ph s with
      | Except.error e => Except.error e
      | Except.ok s2 => Except.ok (Node.str s2)
    | none => Except.ok (Node.str s)
  | Node.scalar v => Except.ok (Node.scalar v)

/-- Error-aware dict branch: a masked key still receives the placeholder
object itself, with no template processing (source line 85). -/
def maskPairsE {a : Type} (lowKeys : List String) (matcher : Option (List String))
    (ph : String) : List (String × Node a) → Except String (List (String × Node a))
  | [] => Except.ok []
  | (k, v) :: rest =>
    if keyMasked lowKeys k then
      match maskPairsE lowKeys matcher ph rest with
      | Except.error e => Except.error e
      | Except.ok qs => Except.ok ((k, Node.str ph) :: qs)
    else
      match maskRecursiveE lowKeys matcher ph v with
      | Except.error e => Except.error e
      | Except.ok v2 =>
        match maskPairsE lowKeys matcher ph rest with
        | Except.error e => Except.error e
        | Except.ok qs => Except.ok ((k, v2) :: qs)

/-- Error-aware list branch. -/
def maskElemsE {a : Type} (lowKeys : List String) (matcher : Option (List String))
    (ph : String) : List (Node a) → Except String (List (Node a))
  | [] => Except.ok []
  | x :: rest =>
    match maskRecursiveE lowKeys matcher ph x with
    | Except.error e => Except.error e
    | Except.ok y =>
      match maskElemsE lowKeys matcher ph rest with
      | Except.error e => Except.error e
      | Except.ok ys => Except.ok (y :: ys)

end

/-- Faithful top-level model of mask_response_fields, with the re.error
path of template processing: returns ok with the masked tree, or the error
the first reached sub call raises. -/
def mask_response_fieldsE {a : Type} (data : Node a)
    (keys_to_mask : Option (List String)) (values_to_mask : Option (List String))
    (placeholder : String) : Except String (Node a) :=
  maskRecursiveE (lowerKeysOf (keys_to_mask.getD [])) (buildMatcher (values_to_mask.getD []))
    placeholder data

/- Basic characterizations of the worker functions. -/

theorem maskPairs_eq_map {a : Type} (lk : List String) (m : Option (List String)) (ph : String)
    (ps : List (String × Node a)) :
    maskPairs lk m ph ps = ps.map (fun kv =>
      if keyMasked lk kv.1 then (kv.1, Node.str ph)
      else (kv.1, maskRecursive lk m ph kv.2)) := by
  induction ps with
  | nil => rfl
  | cons kv rest ih =>
    obtain ⟨k, v⟩ := kv
    simp [maskPairs, ih]

theorem maskElems_eq_map {a : Type} (lk : List String) (m : Option (List String)) (ph : String)
    (xs : List (Node a)) :
    maskElems lk m ph xs = xs.map (maskRecursive lk m ph) := by
  induction xs with
  | nil => rfl
  | cons x rest ih => simp [maskElems, ih]

/- Characterizations of matchAt. -/

theorem matchAt_eq_none_iff (pats : List String) (cs : List Char) :
    matchAt pats cs = none ↔ ∀ p ∈ pats, ciPrefix p.data cs = false := by
  induction pats with
  | nil => simp [matchAt]
  | cons p rest ih =>
    cases h : ciPrefix p.data cs with
    | true =>
      simp only [matchAt, h, if_true]
      constructor
      · intro hc; exact absurd hc (by simp)
      · intro hall; exact absurd (hall p (List.mem_cons_self p rest)) (by simp [h])
    | false =>
      simp only [matchAt, h, Bool.false_eq_true, if_false]
      rw [ih]
      constructor
      · intro hall q hq
        rcases List.mem_cons.mp hq with h1 | h2
        · subst h1; exact h
        · exact hall q h2
      · intro hall q hq
        exact hall q (List.mem_cons_of_mem p hq)

theorem matchAt_eq_some (pats : List String) (cs : List Char) (n : Nat)
    (h : matchAt pats cs = some n) :
    ∃ p ∈ pats, ciPrefix p.data cs = true ∧ n = p.data.length := by
  induction pats with
  | nil => simp [matchAt] at h
  | cons p rest ih =>
    cases hc : ciPrefix p.data cs with
    | true =>
      simp only [matchAt, hc, if_true, Option.some.injEq] at h
      exact ⟨p, List.mem_cons_self p rest, hc, h.symm⟩
    | false =>
      simp only [matchAt, hc, Bool.false_eq_true, if_false] at h
      obtain ⟨q, hq, hcv, hn⟩ := ih h
      exact ⟨q, List.mem_cons_of_mem p hq, hcv, hn⟩

theorem matchAt_cons_of_match (p : String) (rest : List String) (cs : List Char)
    (h : ciPrefix p.data cs = true) : matchAt (p :: rest) cs = some p.data.length := by
  simp [matchAt, h]

theorem matchAt_nil_of_nonempty (pats : List String) (h : ∀ p ∈ pats, p.data ≠ []) :
    matchAt pats [] = none := by
  rw [matchAt_eq_none_iff]
  intro p hp
  cases hd : p.data with
  | nil => exact absurd hd (h p hp)
  | cons c cs => rfl

theorem matchAt_ne_none (pats : List String) (cs : List Char) (p : String)
    (hp : p ∈ pats) (hc : ciPrefix p.data cs = true) : matchAt pats cs ≠ none := by
  intro h
  rw [matchAt_eq_none_iff] at h
  exact absurd hc (by simp [h p hp])

/- Fuel-independence of the scanner and its clean recursion equations. -/

theorem substCharsAux_congr (pats : List String) (ph : List Char) :
    ∀ (f1 f2 : Nat) (cs : List Char), cs.length ≤ f1 → cs.length ≤ f2 →
      substCharsAux pats ph f1 cs = substCharsAux pats ph f2 cs := by
  intro f1
  induction f1 with
  | zero =>
    intro f2 cs h1 h2
    have hnil : cs = [] := List.eq_nil_of_length_eq_zero (Nat.le_zero.mp h1)
    subst hnil
    cases f2 <;> rfl
  | succ f ih =>
    intro f2 cs h1 h2
    cases cs with
    | nil => cases f2 <;> rfl
    | cons c rest =>
      cases f2 with
      | zero => exact absurd h2 (by simp)
      | succ g =>
        cases hm : matchAt pats (c :: rest) with
        | some n =>
          simp only [substCharsAux, hm]
          have hl1 : (rest.drop (n - 1)).length ≤ f := by
            simp only [List.length_cons] at h1
            simp only [List.length_drop]
            omega
          have hl2 : (rest.drop (n - 1)).length ≤ g := by
            simp only [List.length_cons] at h2
            simp only [List.length_drop]
            omega
          rw [ih g _ hl1 hl2]
        | none =>
          simp only [substCharsAux, hm]
          have hl1 : rest.length ≤ f := by
            simp only [List.length_cons] at h1; omega
          have hl2 : rest.length ≤ g := by
            simp only [List.length_cons] at h2; omega
          rw [ih g rest hl1 hl2]

theorem substChars_nil (pats : List String) (ph : List Char) :
    substChars pats ph [] = [] := rfl

theorem substChars_cons_match (pats : List String) (ph : List Char) (c : Char)
    (rest : List Char) (n : Nat) (hm : matchAt pats (c :: rest) = some n) :
    substChars pats ph (c :: rest) = ph ++ substChars pats ph (rest.drop (n - 1)) := by
  show substCharsAux pats ph (rest.length + 1) (c :: rest) = _
  simp only [substCharsAux, hm]
  congr 1
  exact substCharsAux_congr pats ph rest.length (rest.drop (n - 1)).length _
    (by simp only [List.length_drop]; omega) (le_refl _)

theorem substChars_cons_nomatch (pats : List String) (ph : List Char) (c : Char)
    (rest : List Char) (hm : matchAt pats (c :: rest) = none) :
    substChars pats ph (c :: rest) = c :: substChars pats ph rest := by
  show substCharsAux pats ph (rest.length + 1) (c :: rest) = _
  simp only [substCharsAux, hm]
  rfl

/- Membership-based induction principle for the nested tree type. -/

mutual

def Node.inductionOn {a : Type} {P : Node a → Prop}
    (hobj : ∀ ps : List (String × Node a), (∀ kv ∈ ps, P kv.2) → P (Node.obj ps))
    (harr : ∀ xs : List (Node a), (∀ x ∈ xs, P x) → P (Node.arr xs))
    (hstr : ∀ s : String, P (Node.str s))
    (hsca : ∀ v : a, P (Node.scalar v)) : (t : Node a) → P t
  | Node.obj ps => hobj ps (Node.pairsMemInduction hobj harr hstr hsca ps)
  | Node.arr xs => harr xs (Node.elemsMemInduction hobj harr hstr hsca xs)
  | Node.str s => hstr s
  | Node.scalar v => hsca v

def Node.pairsMemInduction {a : Type} {P : Node a → Prop}
    (hobj : ∀ ps : List (String × Node a), (∀ kv ∈ ps, P kv.2) → P (Node.obj ps))
    (harr : ∀ xs : List (Node a), (∀ x ∈ xs, P x) → P (Node.arr xs))
    (hstr : ∀ s : String, P (Node.str s))
    (hsca : ∀ v : a, P (Node.scalar v)) :
    (ps : List (String × Node a)) → ∀ kv ∈ ps, P kv.2
  | [], kv, h => absurd h (List.not_mem_nil kv)
  | (k, v) :: rest, kv, h => by
    rcases List.mem_cons.mp h with h1 | h2
    · subst h1
      exact Node.inductionOn hobj harr hstr hsca v
    · exact Node.pairsMemInduction hobj harr hstr hsca rest kv h2

def Node.elemsMemInduction {a : Type} {P : Node a → Prop}
    (hobj : ∀ ps : List (String × Node a), (∀ kv ∈ ps, P kv.2) → P (Node.obj ps))
    (harr : ∀ xs : List (Node a), (∀ x ∈ xs, P x) → P (Node.arr xs))
    (hstr : ∀ s : String, P (Node.str s))
    (hsca : ∀ v : a, P (Node.scalar v)) :
    (xs : List (Node a)) → ∀ x ∈ xs, P x
  | [], x, h => absurd h (List.not_mem_nil x)
  | y :: rest, x, h => by
    rcases List.mem_cons.mp h with h1 | h2
    · subst h1
      exact Node.inductionOn hobj harr hstr hsca x
    · exact Node.elemsMemInduction hobj harr hstr hsca rest x h2

end

/- Tree-level consequences. -/

theorem keyMasked_nil (k : String) : keyMasked [] k = false := rfl

theorem maskRecursive_id {a : Type} (ph : String) (t : Node a) :
    maskRecursive [] none ph t = t := by
  induction t using Node.inductionOn with
  | hobj ps ih =>
    simp only [maskRecursive]
    rw [maskPairs_eq_map]
    have h2 : ps.map (fun kv => if keyMasked [] kv.1 then (kv.1, Node.str ph)
        else (kv.1, maskRecursive [] none ph kv.2)) = ps.map id := by
      apply List.map_congr_left
      intro kv hkv
      simp only [keyMasked_nil, Bool.false_eq_true, if_false, id]
      obtain ⟨k, v⟩ := kv
      exact congrArg (Prod.mk k) (ih ⟨k, v⟩ hkv)
    rw [h2, List.map_id]
  | harr xs ih =>
    simp only [maskRecursive]
    rw [maskElems_eq_map]
    have h2 : xs.map (maskRecursive [] none ph) = xs.map id :=
      List.map_congr_left (fun x hx => ih x hx)
    rw [h2, List.map_id]
  | hstr s => rfl
  | hsca v => rfl

theorem maskRecursive_keys_congr {a : Type} (lk1 lk2 : List String)
    (m : Option (List String)) (ph : String)
    (h : ∀ k : String, keyMasked lk1 k = keyMasked lk2 k) (t : Node a) :
    maskRecursive lk1 m ph t = maskRecursive lk2 m ph t := by
  induction t using Node.inductionOn with
  | hobj ps ih =>
    simp only [maskRecursive]
    rw [maskPairs_eq_map, maskPairs_eq_map]
    congr 1
    apply List.map_congr_left
    intro kv hkv
    rw [h kv.1]
    cases hk : keyMasked lk2 kv.1 with
    | true => simp [hk]
    | false => simp [hk, ih kv hkv]
  | harr xs ih =>
    simp only [maskRecursive]
    rw [maskElems_eq_map, maskElems_eq_map]
    congr 1
    exact List.map_congr_left (fun x hx => ih x hx)
  | hstr s => rfl
  | hsca v => rfl

/- Idempotence machinery: when the placeholder is non-empty and shares no
lowered character with any pattern, the output of the scanner contains no
match, so a second scan is the identity. -/

theorem ciPrefix_substChars {pats : List String} {ph : List Char}
    (hph : ph ≠ []) :
    ∀ (cs q : List Char), q ≠ [] →
      (∀ c ∈ q, ∀ d ∈ ph, c.toLower ≠ d.toLower) →
      ciPrefix q (substChars pats ph cs) = true → ciPrefix q cs = true := by
  intro cs
  induction cs with
  | nil =>
    intro q hq hdis hpre
    rw [substChars_nil] at hpre
    cases q with
    | nil => exact absurd rfl hq
    | cons c q2 => simp [ciPrefix] at hpre
  | cons c rest ih =>
    intro q hq hdis hpre
    cases hm : matchAt pats (c :: rest) with
    | some n =>
      rw [substChars_cons_match pats ph c rest n hm] at hpre
      obtain ⟨d, ph2, hphd⟩ := List.exists_cons_of_ne_nil hph
      cases q with
      | nil => exact absurd rfl hq
      | cons c0 q2 =>
        rw [hphd] at hpre
        simp only [List.cons_append, ciPrefix, Bool.and_eq_true, beq_iff_eq] at hpre
        exact absurd hpre.1
          (hdis c0 (List.mem_cons_self _ _) d (by rw [hphd]; exact List.mem_cons_self _ _))
    | none =>
      rw [substChars_cons_nomatch pats ph c rest hm] at hpre
      cases q with
      | nil => exact absurd rfl hq
      | cons c0 q2 =>
        simp only [ciPrefix, Bool.and_eq_true, beq_iff_eq] at hpre ⊢
        refine ⟨hpre.1, ?_⟩
        cases q2 with
        | nil => rfl
        | cons c1 q3 =>
          exact ih (c1 :: q3) (by simp)
            (fun c2 hc2 d2 hd2 => hdis c2 (List.mem_cons_of_mem c0 hc2) d2 hd2) hpre.2

theorem noMatch_substChars {pats : List String} {ph : List Char}
    (hpats : ∀ p ∈ pats, p.data ≠ []) (hph : ph ≠ [])
    (hdis : ∀ p ∈ pats, ∀ c ∈ p.data, ∀ d ∈ ph, c.toLower ≠ d.toLower) :
    ∀ (cs : List Char) (i : Nat), matchAt pats ((substChars pats ph cs).drop i) = none
  | [], i => by
    rw [substChars_nil, List.drop_nil]
    exact matchAt_nil_of_nonempty pats hpats
  | c :: rest, i => by
    cases hm : matchAt pats (c :: rest) with
    | some n =>
      rw [substChars_cons_match pats ph c rest n hm]
      by_cases hi : i < ph.length
      · rw [List.drop_append_of_le_length (Nat.le_of_lt hi)]
        rw [List.drop_eq_getElem_cons hi]
        rw [matchAt_eq_none_iff]
        intro p hp
        cases hpd : p.data with
        | nil => exact absurd hpd (hpats p hp)
        | cons c0 p2 =>
          have hne : c0.toLower ≠ (ph[i]).toLower :=
            hdis p hp c0 (by rw [hpd]; exact List.mem_cons_self _ _) ph[i]
              (List.getElem_mem hi)
          cases hbe : (c0.toLower == (ph[i]).toLower) with
          | false => simp [ciPrefix, hbe]
          | true => exact absurd (beq_iff_eq.mp hbe) hne
      · have hi2 : i = ph.length + (i - ph.length) := by omega
        rw [hi2, List.drop_append]
        exact noMatch_substChars hpats hph hdis (rest.drop (n - 1)) (i - ph.length)
    | none =>
      rw [substChars_cons_nomatch pats ph c rest hm]
      cases i with
      | zero =>
        rw [List.drop_zero, matchAt_eq_none_iff]
        intro p hp
        cases hcp : ciPrefix p.data (c :: substChars pats ph rest) with
        | false => rfl
        | true =>
          have heq : (c :: substChars pats ph rest) = substChars pats ph (c :: rest) :=
            (substChars_cons_nomatch pats ph c rest hm).symm
          rw [heq] at hcp
          have hc2 := ciPrefix_substChars hph (c :: rest) p.data (hpats p hp) (hdis p hp) hcp
          rw [matchAt_eq_none_iff] at hm
          exact absurd hc2 (by simp [hm p hp])
      | succ j =>
        rw [List.drop_succ_cons]
        exact noMatch_substChars hpats hph hdis rest j
termination_by cs _ => cs.length
decreasing_by
  all_goals simp only [List.length_drop, List.length_cons]
  all_goals omega

theorem substChars_of_noMatch (pats : List String) (ph : List Char) :
    ∀ cs : List Char, (∀ i, matchAt pats (cs.drop i) = none) → substChars pats ph cs = cs := by
  intro cs
  induction cs with
  | nil => intro h; rfl
  | cons c rest ih =>
    intro h
    have h0 := h 0
    rw [List.drop_zero] at h0
    rw [substChars_cons_nomatch pats ph c rest h0]
    congr 1
    apply ih
    intro i
    have hsucc := h (i + 1)
    rw [List.drop_succ_cons] at hsucc
    exact hsucc

theorem substChars_idem {pats : List String} {ph : List Char}
    (hpats : ∀ p ∈ pats, p.data ≠ []) (hph : ph ≠ [])
    (hdis : ∀ p ∈ pats, ∀ c ∈ p.data, ∀ d ∈ ph, c.toLower ≠ d.toLower)
    (cs : List Char) :
    substChars pats ph (substChars pats ph cs) = substChars pats ph cs :=
  substChars_of_noMatch pats ph _ (fun i => noMatch_substChars hpats hph hdis cs i)

theorem maskRecursive_idem {a : Type} (lk : List String) (m : Option (List String)) (ph : String)
    (hm : ∀ pats, m = some pats →
      (∀ p ∈ pats, p.data ≠ []) ∧ ph.data ≠ [] ∧
      (∀ p ∈ pats, ∀ c ∈ p.data, ∀ d ∈ ph.data, c.toLower ≠ d.toLower))
    (t : Node a) :
    maskRecursive lk m ph (maskRecursive lk m ph t) = maskRecursive lk m ph t := by
  induction t using Node.inductionOn with
  | hobj ps ih =>
    simp only [maskRecursive]
    rw [maskPairs_eq_map, maskPairs_eq_map, List.map_map]
    congr 1
    apply List.map_congr_left
    intro kv hkv
    simp only [Function.comp]
    cases hk : keyMasked lk kv.1 with
    | true => simp [hk]
    | false => simp [hk, ih kv hkv]
  | harr xs ih =>
    simp only [maskRecursive]
    rw [maskElems_eq_map, maskElems_eq_map, List.map_map]
    congr 1
    apply List.map_congr_left
    intro x hx
    simp only [Function.comp]
    exact ih x hx
  | hstr s =>
    cases m with
    | none => rfl
    | some pats =>
      obtain ⟨h1, h2, h3⟩ := hm pats rfl
      simp only [maskRecursive]
      exact congrArg (fun l => Node.str (String.mk l)) (substChars_idem h1 h2 h3 s.data)
  | hsca v => rfl

/- Further helper lemmas used by the claim theorems. -/

theorem mask_response_fields_def {a : Type} (t : Node a) (ks vs : Option (List String))
    (ph : String) :
    mask_response_fields t ks vs ph =
      maskRecursive (lowerKeysOf (ks.getD [])) (buildMatcher (vs.getD [])) ph t := rfl

theorem buildMatcher_some (vs pats : List String) (h : buildMatcher vs = some pats) :
    pats = vs.filter (fun v => !v.isEmpty) := by
  unfold buildMatcher at h
  by_cases hf : (vs.filter (fun v => !v.isEmpty)).isEmpty
  · simp [hf] at h
  · simp [hf] at h
    exact h.symm

theorem buildMatcher_none_of_filter_nil (vs : List String)
    (h : vs.filter (fun v => !v.isEmpty) = []) : buildMatcher vs = none := by
  unfold buildMatcher
  simp [h]

theorem filter_nonempty_data (vs : List String) :
    ∀ p ∈ vs.filter (fun v => !v.isEmpty), p.data ≠ [] := by
  intro p hp hd
  have h2 := (List.mem_filter.mp hp).2
  have hp0 : p = "" := String.ext (by rw [hd])
  rw [hp0] at h2
  exact absurd h2 (by decide)

theorem maskPairs_length {a : Type} (lk : List String) (m : Option (List String))
    (ph : String) (ps : List (String × Node a)) :
    (maskPairs lk m ph ps).length = ps.length := by
  rw [maskPairs_eq_map, List.length_map]

theorem maskPairs_append_masked {a : Type} (lk : List String) (m : Option (List String))
    (ph : String) (ps qs : List (String × Node a)) (k : String) (v : Node a)
    (hk : keyMasked lk k = true) :
    maskPairs lk m ph (ps ++ (k, v) :: qs) =
      maskPairs lk m ph ps ++ (k, Node.str ph) :: maskPairs lk m ph qs := by
  rw [maskPairs_eq_map, maskPairs_eq_map, maskPairs_eq_map, List.map_append, List.map_cons]
  simp [hk]

theorem maskString_of_no_occurrence (pats : List String) (ph s : String)
    (h : ∀ p ∈ pats, ciOccurs p s = false) : maskString pats ph s = s := by
  unfold maskString
  have hnm : ∀ i, matchAt pats (s.data.drop i) = none := by
    intro i
    rw [matchAt_eq_none_iff]
    intro p hp
    have hocc := h p hp
    unfold ciOccurs at hocc
    rw [List.any_eq_false] at hocc
    by_cases hi : i ≤ s.data.length
    · have hx := hocc i (List.mem_range.mpr (by omega))
      simpa using hx
    · rw [List.drop_eq_nil_of_le (by omega)]
      have hx := hocc s.data.length (List.mem_range.mpr (by omega))
      rw [List.drop_eq_nil_of_le (le_refl _)] at hx
      simpa using hx
  rw [substChars_of_noMatch pats ph.data s.data hnm]

/- Template lemmas: a backslash-free placeholder parses to an all-literal
template whose expansion is the placeholder itself, so the faithful
substitution coincides with the literal one. -/

theorem expandTemplate_lit (l matched : List Char) :
    expandTemplate matched (l.map (fun c => TmplItem.lit [c])) = l := by
  induction l with
  | nil => rfl
  | cons c rest ih => simp [expandTemplate, ih]

theorem parseTemplateAux_noBackslash :
    ∀ (fuel : Nat) (cs : List Char), cs.length ≤ fuel → (∀ c ∈ cs, c ≠ '\\') →
      parseTemplateAux fuel cs = Except.ok (cs.map (fun c => TmplItem.lit [c])) := by
  intro fuel
  induction fuel with
  | zero =>
    intro cs h1 h2
    have hnil : cs = [] := List.eq_nil_of_length_eq_zero (Nat.le_zero.mp h1)
    subst hnil
    rfl
  | succ f ih =>
    intro cs h1 h2
    cases cs with
    | nil => rfl
    | cons c rest =>
      have hc : ¬(c = '\\') := h2 c (List.mem_cons_self _ _)
      simp only [parseTemplateAux, if_neg hc]
      rw [ih rest (by simp only [List.length_cons] at h1; omega)
        (fun x hx => h2 x (List.mem_cons_of_mem _ hx))]
      rfl

theorem parseTemplate_noBackslash (ph : List Char) (h : ∀ c ∈ ph, c ≠ '\\') :
    parseTemplate ph = Except.ok (ph.map (fun c => TmplItem.lit [c])) :=
  parseTemplateAux_noBackslash ph.length ph (le_refl _) h

theorem substTCharsAux_lit (pats : List String) (ph : List Char) :
    ∀ (fuel : Nat) (cs : List Char),
      substTCharsAux pats (ph.map (fun c => TmplItem.lit [c])) fuel cs =
        substCharsAux pats ph fuel cs := by
  intro fuel
  induction fuel with
  | zero => intro cs; cases cs <;> rfl
  | succ f ih =>
    intro cs
    cases cs with
    | nil => rfl
    | cons c rest =>
      cases hm : matchAt pats (c :: rest) with
      | some n => simp only [substTCharsAux, substCharsAux, hm, expandTemplate_lit, ih]
      | none => simp only [substTCharsAux, substCharsAux, hm, ih]

theorem subE_noBackslash (pats : List String) (ph s : String)
    (h : ∀ c ∈ ph.data, c ≠ '\\') :
    subE pats ph s = Except.ok (maskString pats ph s) := by
  unfold subE
  rw [parseTemplate_noBackslash ph.data h]
  show Except.ok (String.mk (substTChars pats _ s.data)) = _
  unfold substTChars maskString substChars
  rw [substTCharsAux_lit]

/- Fuel-independence and recursion equations of the template-aware
scanner. -/

theorem substTCharsAux_congr (pats : List String) (items : List TmplItem) :
    ∀ (f1 f2 : Nat) (cs : List Char), cs.length ≤ f1 → cs.length ≤ f2 →
      substTCharsAux pats items f1 cs = substTCharsAux pats items f2 cs := by
  intro f1
  induction f1 with
  | zero =>
    intro f2 cs h1 h2
    have hnil : cs = [] := List.eq_nil_of_length_eq_zero (Nat.le_zero.mp h1)
    subst hnil
    cases f2 <;> rfl
  | succ f ih =>
    intro f2 cs h1 h2
    cases cs with
    | nil => cases f2 <;> rfl
    | cons c rest =>
      cases f2 with
      | zero => exact absurd h2 (by simp)
      | succ g =>
        cases hm : matchAt pats (c :: rest) with
        | some n =>
          simp only [substTCharsAux, hm]
          have hl1 : (rest.drop (n - 1)).length ≤ f := by
            simp only [List.length_cons] at h1
            simp only [List.length_drop]
            omega
          have hl2 : (rest.drop (n - 1)).length ≤ g := by
            simp only [List.length_cons] at h2
            simp only [List.length_drop]
            omega
          rw [ih g _ hl1 hl2]
        | none =>
          simp only [substTCharsAux, hm]
          have hl1 : rest.length ≤ f := by
            simp only [List.length_cons] at h1; omega
          have hl2 : rest.length ≤ g := by
            simp only [List.length_cons] at h2; omega
          rw [ih g rest hl1 hl2]

theorem substTChars_cons_match (pats : List String) (items : List TmplItem) (c : Char)
    (rest : List Char) (n : Nat) (hm : matchAt pats (c :: rest) = some n) :
    substTChars pats items (c :: rest) =
      expandTemplate ((c :: rest).take n) items ++ substTChars pats items (rest.drop (n - 1)) := by
  show substTCharsAux pats items (rest.length + 1) (c :: rest) = _
  simp only [substTCharsAux, hm]
  congr 1
  exact substTCharsAux_congr pats items rest.length (rest.drop (n - 1)).length _
    (by simp only [List.length_drop]; omega) (le_refl _)

theorem substTChars_cons_nomatch (pats : List String) (items : List TmplItem) (c : Char)
    (rest : List Char) (hm : matchAt pats (c :: rest) = none) :
    substTChars pats items (c :: rest) = c :: substTChars pats items rest := by
  show substTCharsAux pats items (rest.length + 1) (c :: rest) = _
  simp only [substTCharsAux, hm]
  rfl

/- The error-aware traversal refines the total one for backslash-free
placeholders, and returns ok for every valid template. -/

theorem maskPairsE_refines {a : Type} (lk : List String) (m : Option (List String))
    (ph : String) (ps : List (String × Node a))
    (h : ∀ kv ∈ ps, maskRecursiveE lk m ph kv.2 = Except.ok (maskRecursive lk m ph kv.2)) :
    maskPairsE lk m ph ps = Except.ok (maskPairs lk m ph ps) := by
  induction ps with
  | nil => rfl
  | cons kv rest ihl =>
    obtain ⟨k, v⟩ := kv
    have hv := h ⟨k, v⟩ (List.mem_cons_self _ _)
    have hrest := ihl (fun kv2 hkv2 => h kv2 (List.mem_cons_of_mem _ hkv2))
    by_cases hk : keyMasked lk k
    · simp [maskPairsE, maskPairs, hk, hrest]
    · simp [maskPairsE, maskPairs, hk, hrest, hv]

theorem maskElemsE_refines {a : Type} (lk : List String) (m : Option (List String))
    (ph : String) (xs : List (Node a))
    (h : ∀ x ∈ xs, maskRecursiveE lk m ph x = Except.ok (maskRecursive lk m ph x)) :
    maskElemsE lk m ph xs = Except.ok (maskElems lk m ph xs) := by
  induction xs with
  | nil => rfl
  | cons x rest ihl =>
    have hx := h x (List.mem_cons_self _ _)
    have hrest := ihl (fun y hy => h y (List.mem_cons_of_mem _ hy))
    simp [maskElemsE, maskElems, hx, hrest]

theorem maskRecursiveE_refines {a : Type} (lk : List String) (m : Option (List String))
    (ph : String) (hnb : ∀ c ∈ ph.data, c ≠ '\\') (t : Node a) :
    maskRecursiveE lk m ph t = Except.ok (maskRecursive lk m ph t) := by
  induction t using Node.inductionOn with
  | hobj ps ih => simp [maskRecursiveE, maskRecursive, maskPairsE_refines lk m ph ps ih]
  | harr xs ih => simp [maskRecursiveE, maskRecursive, maskElemsE_refines lk m ph xs ih]
  | hstr s =>
    cases m with
    | none => rfl
    | some pats => simp [maskRecursiveE, maskRecursive, subE_noBackslash pats ph s hnb]
  | hsca v => rfl

theorem mask_response_fieldsE_refines {a : Type} (t : Node a) (ks vs : Option (List String))
    (ph : String) (hnb : ∀ c ∈ ph.data, c ≠ '\\') :
    mask_response_fieldsE t ks vs ph = Except.ok (mask_response_fields t ks vs ph) :=
  maskRecursiveE_refines _ _ _ hnb t

theorem maskPairsE_isOk {a : Type} (lk : List String) (m : Option (List String))
    (ph : String) (ps : List (String × Node a))
    (h : ∀ kv ∈ ps, ∃ r, maskRecursiveE lk m ph kv.2 = Except.ok r) :
    ∃ qs, maskPairsE lk m ph ps = Except.ok qs := by
  induction ps with
  | nil => exact ⟨[], rfl⟩
  | cons kv rest ihl =>
    obtain ⟨k, v⟩ := kv
    obtain ⟨r, hr⟩ := h ⟨k, v⟩ (List.mem_cons_self _ _)
    obtain ⟨qs, hqs⟩ := ihl (fun kv2 h2 => h kv2 (List.mem_cons_of_mem _ h2))
    by_cases hk : keyMasked lk k
    · exact ⟨(k, Node.str ph) :: qs, by simp [maskPairsE, hk, hqs]⟩
    · exact ⟨(k, r) :: qs, by simp [maskPairsE, hk, hqs, hr]⟩

theorem maskElemsE_isOk {a : Type} (lk : List String) (m : Option (List String))
    (ph : String) (xs : List (Node a))
    (h : ∀ x ∈ xs, ∃ r, maskRecursiveE lk m ph x = Except.ok r) :
    ∃ ys, maskElemsE lk m ph xs = Except.ok ys := by
  induction xs with
  | nil => exact ⟨[], rfl⟩
  | cons x rest ihl =>
    obtain ⟨y, hy⟩ := h x (List.mem_cons_self _ _)
    obtain ⟨ys, hys⟩ := ihl (fun z hz => h z (List.mem_cons_of_mem _ hz))
    exact ⟨y :: ys, by simp [maskElemsE, hy, hys]⟩

theorem maskRecursiveE_isOk {a : Type} (lk : List String) (m : Option (List String))
    (ph : String)
    (h : ∀ pats, m = some pats → ∃ items, parseTemplate ph.data = Except.ok items)
    (t : Node a) : ∃ r, maskRecursiveE lk m ph t = Except.ok r := by
  induction t using Node.inductionOn with
  | hobj ps ih =>
    obtain ⟨qs, hqs⟩ := maskPairsE_isOk lk m ph ps ih
    exact ⟨Node.obj qs, by simp [maskRecursiveE, hqs]⟩
  | harr xs ih =>
    obtain ⟨ys, hys⟩ := maskElemsE_isOk lk m ph xs ih
    exact ⟨Node.arr ys, by simp [maskRecursiveE, hys]⟩
  | hstr s =>
    cases m with
    | none => exact ⟨Node.str s, rfl⟩
    | some pats =>
      obtain ⟨items, hi⟩ := h pats rfl
      exact ⟨Node.str (String.mk (substTChars pats items s.data)),
        by simp [maskRecursiveE, subE, hi]⟩
  | hsca v => exact ⟨Node.scalar v, rfl⟩

/-- Idempotence of the total masker under a non-empty placeholder that is
character-disjoint, after folding, from every configured substring. -/
theorem mask_response_fields_idem {a : Type} (ks vs : Option (List String)) (ph : String)
    (hph : ph.data ≠ [])
    (hsafe : ∀ p ∈ (vs.getD []).filter (fun v => !v.isEmpty),
      ∀ c ∈ p.data, ∀ d ∈ ph.data, c.toLower ≠ d.toLower)
    (t : Node a) :
    mask_response_fields (mask_response_fields t ks vs ph) ks vs ph =
      mask_response_fields t ks vs ph := by
  rw [mask_response_fields_def, mask_response_fields_def]
  apply maskRecursive_idem
  intro pats hp
  have hpf : pats = (vs.getD []).filter (fun v => !v.isEmpty) := buildMatcher_some _ _ hp
  subst hpf
  exact ⟨filter_nonempty_data _, hph, hsafe⟩

/- Claim theorems. -/

/-- C1: for every mapping entry whose lower-cased key is in the lower-cased
keys_to_mask set, the output value is exactly the placeholder and the
original value subtree is never recursed into nor substring-masked (the
output is independent of that value); in particular masking a dict whose
password key holds a nested mapping yields only the placeholder, even when
the nested string is listed in values_to_mask. -/
theorem c1_key_masking_stops_recursion :
    (∀ (a : Type) (ks vs : Option (List String)) (ph k : String) (v w : Node a)
        (ps qs : List (String × Node a)),
        keyMasked (lowerKeysOf (ks.getD [])) k = true →
        (mask_response_fields (Node.obj (ps ++ (k, v) :: qs)) ks vs ph =
          mask_response_fields (Node.obj (ps ++ (k, w) :: qs)) ks vs ph) ∧
        ∃ rs ss : List (String × Node a),
          mask_response_fields (Node.obj (ps ++ (k, v) :: qs)) ks vs ph =
          Node.obj (rs ++ (k, Node.str ph) :: ss) ∧ rs.length = ps.length) ∧
    mask_response_fields
      (Node.obj [("password", Node.obj [("nested", Node.str "secret-value")])] : Node Unit)
      (some ["password"]) (some ["secret-value"]) "******" =
      Node.obj [("password", Node.str "******")] := by
  constructor
  · intro a ks vs ph k v w ps qs hk
    constructor
    · show Node.obj (maskPairs _ _ _ _) = Node.obj (maskPairs _ _ _ _)
      rw [maskPairs_append_masked _ _ _ _ _ _ _ hk, maskPairs_append_masked _ _ _ _ _ _ _ hk]
    · refine ⟨maskPairs (lowerKeysOf (ks.getD [])) (buildMatcher (vs.getD [])) ph ps,
        maskPairs (lowerKeysOf (ks.getD [])) (buildMatcher (vs.getD [])) ph qs, ?_,
        maskPairs_length _ _ _ ps⟩
      show Node.obj (maskPairs _ _ _ _) = _
      rw [maskPairs_append_masked _ _ _ _ _ _ _ hk]
  · rfl

/-- C1 witness: the general statement applied at a concrete masked key with
two different values (a string to be substring-masked and an opaque
scalar). -/
theorem c1_key_masking_stops_recursion_witness :
    keyMasked (lowerKeysOf ((some ["PASSWORD"] : Option (List String)).getD [])) "Password" = true ∧
    ((mask_response_fields (Node.obj ([] ++ ("Password", Node.str "top-secret") :: []) : Node Unit)
        (some ["PASSWORD"]) none "******" =
      mask_response_fields (Node.obj ([] ++ ("Password", Node.scalar ()) :: []) : Node Unit)
        (some ["PASSWORD"]) none "******") ∧
    ∃ rs ss : List (String × Node Unit),
      mask_response_fields (Node.obj ([] ++ ("Password", Node.str "top-secret") :: []) : Node Unit)
        (some ["PASSWORD"]) none "******" = Node.obj (rs ++ ("Password", Node.str "******") :: ss) ∧
      rs.length = ([] : List (String × Node Unit)).length) :=
  ⟨by decide, c1_key_masking_stops_recursion.1 Unit (some ["PASSWORD"]) none "******" "Password"
    (Node.str "top-secret") (Node.scalar ()) [] [] (by decide)⟩

/-- C2 counterexample: the claim as stated is false of the program, because
sub processes the replacement string as a template rather than inserting
the placeholder. With the two-character placeholder backslash-n the program
replaces the match by a newline character, not by the placeholder string;
with two group-0 references it re-inserts the matched text twice. -/
theorem c2_literal_replacement_counterexample :
    mask_response_fieldsE (Node.str "b" : Node Unit) none (some ["b"]) "\\n" =
      Except.ok (Node.str "\n") ∧
    (Node.str "\n" : Node Unit) ≠ Node.str "\\n" ∧
    mask_response_fieldsE (Node.str "ab" : Node Unit) none (some ["a"]) "\\g<0>\\g<0>" =
      Except.ok (Node.str "aab") := by
  refine ⟨rfl, ?_, rfl⟩
  intro h
  rw [Node.str.injEq] at h
  exact absurd h (by decide)

/-- C2 amended: every non-overlapping case-insensitive occurrence of a
configured substring is replaced, scanning left to right, by the
replacement-template expansion of the placeholder (escape sequences denote
their characters, a group-0 reference re-inserts the matched text); when
the placeholder contains no backslash the expansion is the placeholder
verbatim and the claim holds as originally stated, as in the concrete
specification example. The middle conjuncts are the recursion equations of
the scanner: a match consumes its whole text, emits the expansion at the
matched text, and the scan resumes after the match; a non-matching position
is copied and the scan moves one character right. -/
theorem c2_amended_template_substring_masking :
    (∀ (a : Type) (ks : Option (List String)) (vs : List String) (ph s : String)
        (pats : List String), buildMatcher vs = some pats → (∀ c ∈ ph.data, c ≠ '\\') →
        mask_response_fieldsE (Node.str s : Node a) ks (some vs) ph =
          Except.ok (Node.str (maskString pats ph s))) ∧
    (∀ (a : Type) (ks : Option (List String)) (vs : List String) (ph s : String)
        (pats : List String) (items : List TmplItem),
        buildMatcher vs = some pats → parseTemplate ph.data = Except.ok items →
        mask_response_fieldsE (Node.str s : Node a) ks (some vs) ph =
          Except.ok (Node.str (String.mk (substTChars pats items s.data)))) ∧
    (∀ (pats : List String) (items : List TmplItem) (c : Char) (rest : List Char) (n : Nat),
        matchAt pats (c :: rest) = some n →
        substTChars pats items (c :: rest) =
          expandTemplate ((c :: rest).take n) items ++
            substTChars pats items (rest.drop (n - 1))) ∧
    (∀ (pats : List String) (items : List TmplItem) (c : Char) (rest : List Char),
        matchAt pats (c :: rest) = none →
        substTChars pats items (c :: rest) = c :: substTChars pats items rest) ∧
    mask_response_fieldsE
      (Node.str "Password PASSWORD password and password123, product is my-secret-product" : Node Unit)
      none (some ["password", "my-secret"]) "******" =
      Except.ok (Node.str "****** ****** ****** and ******123, product is ******-product") := by
  refine ⟨?_, ?_, substTChars_cons_match, substTChars_cons_nomatch, rfl⟩
  · intro a ks vs ph s pats hb hnb
    rw [mask_response_fieldsE_refines _ ks (some vs) ph hnb]
    congr 1
    rw [mask_response_fields_def]
    show maskRecursive (lowerKeysOf (ks.getD [])) (buildMatcher vs) ph (Node.str s) = _
    rw [hb]
    rfl
  · intro a ks vs ph s pats items hb hpt
    show maskRecursiveE (lowerKeysOf (ks.getD [])) (buildMatcher vs) ph (Node.str s) = _
    rw [hb]
    simp only [maskRecursiveE, subE, hpt]

/-- C2 witness: the string-node conjunct applied at a concrete
configuration, with the matcher-construction and backslash-free hypotheses
discharged by evaluation. -/
theorem c2_amended_template_substring_masking_witness :
    buildMatcher ["password", "my-secret"] = some ["password", "my-secret"] ∧
    (∀ c ∈ ("******" : String).data, c ≠ '\\') ∧
    mask_response_fieldsE (Node.str "my Password" : Node Unit) none
        (some ["password", "my-secret"]) "******" =
      Except.ok (Node.str (maskString ["password", "my-secret"] "******" "my Password")) :=
  ⟨by decide, by decide,
    c2_amended_template_substring_masking.1 Unit none ["password", "my-secret"] "******"
      "my Password" ["password", "my-secret"] (by decide) (by decide)⟩

/-- C3 counterexample: the claim as stated is false, because it quantifies
over every configuration: with a matcher built and the placeholder
backslash-one, the sub call raises re.error (invalid group reference, the
zero-group pattern has no group 1) as soon as a string node is processed,
even though nothing in the subject matches. -/
theorem c3_invalid_template_counterexample :
    mask_response_fieldsE (Node.str "x" : Node Unit) none (some ["secret"]) "\\1" =
      Except.error "invalid group reference" ∧
    ∀ r : Node Unit,
      mask_response_fieldsE (Node.str "x" : Node Unit) none (some ["secret"]) "\\1" ≠
        Except.ok r := by
  refine ⟨rfl, ?_⟩
  intro r h
  exact Except.noConfusion
    (show (Except.error "invalid group reference" : Except String (Node Unit)) = Except.ok r
      from h)

/-- C3 amended: masking returns a result without raising on every
well-formed tree (mappings with string keys, sequences, strings, opaque
scalars, to any finite depth, including empty containers, mixed element
types and unicode strings) for every configuration in which either no
matcher is built or the placeholder parses as a valid replacement template;
in particular, the error-aware model coincides with ok of the total masker
whenever the placeholder contains no backslash, and the mixed concrete tree
evaluates as expected. -/
theorem c3_amended_no_failure :
    (∀ (a : Type) (t : Node a) (ks vs : Option (List String)) (ph : String),
        (∀ pats, buildMatcher (vs.getD []) = some pats →
          ∃ items, parseTemplate ph.data = Except.ok items) →
        ∃ r : Node a, mask_response_fieldsE t ks vs ph = Except.ok r) ∧
    (∀ (a : Type) (t : Node a) (ks vs : Option (List String)) (ph : String),
        (∀ c ∈ ph.data, c ≠ '\\') →
        mask_response_fieldsE t ks vs ph =
          Except.ok (mask_response_fields t ks vs ph)) ∧
    mask_response_fieldsE
      (Node.obj [("user", Node.str "John"), ("пусто", Node.obj []),
        ("items", Node.arr [Node.arr [], Node.scalar 5, Node.str "секрет-token",
          Node.obj [("PASSWORD", Node.scalar 0)]]),
        ("n", Node.scalar (-3))] : Node Int)
      (some ["password"]) (some ["token", ""]) "******" =
      Except.ok (Node.obj [("user", Node.str "John"), ("пусто", Node.obj []),
        ("items", Node.arr [Node.arr [], Node.scalar 5, Node.str "секрет-******",
          Node.obj [("PASSWORD", Node.str "******")]]),
        ("n", Node.scalar (-3))]) := by
  refine ⟨?_, ?_, rfl⟩
  · intro a t ks vs ph h
    exact maskRecursiveE_isOk _ _ _ h t
  · intro a t ks vs ph hnb
    exact mask_response_fieldsE_refines t ks vs ph hnb

/-- C3 witness: the no-raise conjuncts applied at concrete configurations,
one with a valid non-trivial template (a group-0 reference) and one with a
backslash-free placeholder, hypotheses discharged by evaluation. -/
theorem c3_amended_no_failure_witness :
    (∀ pats, buildMatcher ((some ["b"] : Option (List String)).getD []) = some pats →
      ∃ items, parseTemplate ("\\g<0>!" : String).data = Except.ok items) ∧
    (∃ r : Node Unit,
      mask_response_fieldsE (Node.str "b" : Node Unit) none (some ["b"]) "\\g<0>!" =
        Except.ok r) ∧
    mask_response_fieldsE (Node.str "b" : Node Unit) none (some ["b"]) "******" =
      Except.ok (mask_response_fields (Node.str "b" : Node Unit) none (some ["b"]) "******") :=
  ⟨fun _ _ => ⟨_, rfl⟩,
    c3_amended_no_failure.1 Unit (Node.str "b") none (some ["b"]) "\\g<0>!"
      (fun _ _ => ⟨_, rfl⟩),
    c3_amended_no_failure.2.1 Unit (Node.str "b") none (some ["b"]) "******" (by decide)⟩

/-- C4: the output tree has the shape of the input except at masked nodes:
output mappings have exactly the input keys, unaltered and in order (keys
are never substring-scanned), sequences keep their length with elements
masked in order by the same configuration, and every non-mapping,
non-sequence, non-string node is returned unchanged. -/
theorem c4_shape_preserved :
    (∀ (a : Type) (ks vs : Option (List String)) (ph : String)
        (ps : List (String × Node a)),
        ∃ qs, mask_response_fields (Node.obj ps) ks vs ph = Node.obj qs ∧
          qs.map Prod.fst = ps.map Prod.fst ∧ qs.length = ps.length) ∧
    (∀ (a : Type) (ks vs : Option (List String)) (ph : String) (xs : List (Node a)),
        ∃ ys, mask_response_fields (Node.arr xs) ks vs ph = Node.arr ys ∧
          ys = xs.map (fun x => mask_response_fields x ks vs ph) ∧
          ys.length = xs.length) ∧
    (∀ (a : Type) (ks vs : Option (List String)) (ph : String) (v : a),
        mask_response_fields (Node.scalar v) ks vs ph = Node.scalar v) := by
  refine ⟨?_, ?_, ?_⟩
  · intro a ks vs ph ps
    refine ⟨maskPairs _ _ _ ps, rfl, ?_, maskPairs_length _ _ _ ps⟩
    rw [maskPairs_eq_map, List.map_map]
    apply List.map_congr_left
    intro kv hkv
    cases hk : keyMasked (lowerKeysOf (ks.getD [])) kv.1 with
    | true => simp [hk, Function.comp]
    | false => simp [hk, Function.comp]
  · intro a ks vs ph xs
    refine ⟨maskElems _ _ _ xs, rfl, ?_, ?_⟩
    · rw [maskElems_eq_map]
      rfl
    · rw [maskElems_eq_map, List.length_map]
  · intro a ks vs ph v
    rfl

/-- C5 counterexample: the claim as stated is false. With
values_to_mask = [ba] and placeholder = a, the placeholder does not contain
the configured substring (first conjunct), yet masking the string bba once
gives ba (the emitted b and the placeholder a recombine into a fresh
match), and masking a second time gives a, a different tree. -/
theorem c5_idempotence_counterexample :
    ciOccurs "ba" "a" = false ∧
    mask_response_fields
        (mask_response_fields (Node.str "bba" : Node Unit) none (some ["ba"]) "a")
        none (some ["ba"]) "a" ≠
      mask_response_fields (Node.str "bba" : Node Unit) none (some ["ba"]) "a" := by
  refine ⟨by decide, ?_⟩
  show (Node.str "a" : Node Unit) ≠ Node.str "ba"
  intro h
  rw [Node.str.injEq] at h
  exact absurd h (by decide)

/-- C5 amended: masking is idempotent (and raises nothing) whenever the
placeholder contains no backslash (so the replacement template inserts it
verbatim rather than expanding escapes such as the BEL escape), is
non-empty, and shares no character, after case folding, with any configured
masking substring. The original hypothesis, that the placeholder does not
contain any configured substring, is too weak: inserted replacement text
can join with adjacent kept text to create a fresh match, and a
backslash escape can expand to a character of a pattern. The default
placeholder of asterisks satisfies the strengthened hypothesis for any
alphanumeric substrings. -/
theorem c5_amended_idempotent {a : Type} (ks vs : Option (List String)) (ph : String)
    (hnb : ∀ c ∈ ph.data, c ≠ '\\')
    (hph : ph.data ≠ [])
    (hsafe : ∀ p ∈ (vs.getD []).filter (fun v => !v.isEmpty),
      ∀ c ∈ p.data, ∀ d ∈ ph.data, c.toLower ≠ d.toLower)
    (t : Node a) :
    ∃ u : Node a, mask_response_fieldsE t ks vs ph = Except.ok u ∧
      mask_response_fieldsE u ks vs ph = Except.ok u := by
  refine ⟨mask_response_fields t ks vs ph, mask_response_fieldsE_refines t ks vs ph hnb, ?_⟩
  rw [mask_response_fieldsE_refines _ ks vs ph hnb]
  rw [mask_response_fields_idem ks vs ph hph hsafe t]

/-- C5 witness: the amended idempotence applied to a concrete tree with the
default placeholder, all three hypotheses discharged by evaluation. -/
theorem c5_amended_idempotent_witness :
    ((∀ c ∈ ("******" : String).data, c ≠ '\\') ∧ ("******" : String).data ≠ [] ∧
      ∀ p ∈ ((some ["password"] : Option (List String)).getD []).filter (fun v => !v.isEmpty),
        ∀ c ∈ p.data, ∀ d ∈ ("******" : String).data, c.toLower ≠ d.toLower) ∧
    ∃ u : Node Unit,
      mask_response_fieldsE
        (Node.obj [("token", Node.str "abc"), ("msg", Node.str "my password here")] : Node Unit)
        (some ["token"]) (some ["password"]) "******" = Except.ok u ∧
      mask_response_fieldsE u (some ["token"]) (some ["password"]) "******" = Except.ok u :=
  ⟨⟨by decide, by decide, by decide⟩,
    c5_amended_idempotent (some ["token"]) (some ["password"]) "******"
      (by decide) (by decide) (by decide) _⟩

/-- C6: falsy entries of values_to_mask are discarded before the matcher is
built (filtering twice changes nothing), and when nothing remains the
matcher is omitted: masking then equals the run with no matcher, arrays of
strings pass through unchanged everywhere, while key-based masking still
replaces values under masked keys. -/
theorem c6_falsy_values_discarded :
    (∀ ws : List String, buildMatcher ws = buildMatcher (ws.filter (fun v => !v.isEmpty))) ∧
    (∀ (ks : Option (List String)) (ph : String) (vs : List String),
        vs.filter (fun v => !v.isEmpty) = [] →
        buildMatcher vs = none ∧
        (∀ (a : Type) (t : Node a), mask_response_fields t ks (some vs) ph =
          maskRecursive (lowerKeysOf (ks.getD [])) none ph t) ∧
        (∀ (a : Type) (xs : List String),
          mask_response_fields (Node.arr (xs.map Node.str) : Node a) ks (some vs) ph =
            Node.arr (xs.map Node.str)) ∧
        (∀ (a : Type) (k : String) (v : Node a),
          keyMasked (lowerKeysOf (ks.getD [])) k = true →
          mask_response_fields (Node.obj [(k, v)]) ks (some vs) ph =
            Node.obj [(k, Node.str ph)])) := by
  constructor
  · intro ws
    unfold buildMatcher
    rw [List.filter_filter]
    simp
  · intro ks ph vs hf
    have hb : buildMatcher vs = none := buildMatcher_none_of_filter_nil vs hf
    refine ⟨hb, ?_, ?_, ?_⟩
    · intro a t
      rw [mask_response_fields_def]
      show maskRecursive (lowerKeysOf (ks.getD [])) (buildMatcher vs) ph t = _
      rw [hb]
    · intro a xs
      rw [mask_response_fields_def]
      show maskRecursive (lowerKeysOf (ks.getD [])) (buildMatcher vs) ph _ = _
      rw [hb]
      simp only [maskRecursive]
      rw [maskElems_eq_map, List.map_map]
      congr 1
    · intro a k v hk
      rw [mask_response_fields_def]
      show maskRecursive (lowerKeysOf (ks.getD [])) (buildMatcher vs) ph _ = _
      rw [hb]
      simp [maskRecursive, maskPairs, hk]

/-- C6 witness: the second part applied to a values list of two empty
strings, with the emptiness hypothesis discharged by evaluation. -/
theorem c6_falsy_values_discarded_witness :
    ((["", ""] : List String).filter (fun v => !v.isEmpty) = []) ∧
    (buildMatcher ["", ""] = none ∧
      (∀ (a : Type) (t : Node a),
        mask_response_fields t (some ["password"]) (some ["", ""]) "******" =
          maskRecursive (lowerKeysOf ((some ["password"] : Option (List String)).getD []))
            none "******" t) ∧
      (∀ (a : Type) (xs : List String),
        mask_response_fields (Node.arr (xs.map Node.str) : Node a) (some ["password"])
            (some ["", ""]) "******" = Node.arr (xs.map Node.str)) ∧
      (∀ (a : Type) (k : String) (v : Node a),
        keyMasked (lowerKeysOf ((some ["password"] : Option (List String)).getD [])) k = true →
        mask_response_fields (Node.obj [(k, v)]) (some ["password"]) (some ["", ""]) "******" =
          Node.obj [(k, Node.str "******")])) :=
  ⟨by decide, c6_falsy_values_discarded.2 (some ["password"]) "******" ["", ""] (by decide)⟩

/-- C7: with no keys to mask and no (or only falsy) values to mask, the
masker is the identity on every tree. -/
theorem c7_empty_config_identity {a : Type} (vs : List String) (ph : String)
    (hf : vs.filter (fun v => !v.isEmpty) = []) (t : Node a) :
    mask_response_fields t none (some vs) ph = t ∧
    mask_response_fields t none none ph = t := by
  have hb : buildMatcher vs = none := buildMatcher_none_of_filter_nil vs hf
  constructor
  · rw [mask_response_fields_def]
    show maskRecursive [] (buildMatcher vs) ph t = t
    rw [hb]
    exact maskRecursive_id ph t
  · rw [mask_response_fields_def]
    show maskRecursive [] none ph t = t
    exact maskRecursive_id ph t

/-- C7 witness: the identity applied to a concrete tree, once with an
all-falsy values list and once with absent configuration. -/
theorem c7_empty_config_identity_witness :
    ((([""] : List String).filter (fun v => !v.isEmpty)) = [] ∧
      mask_response_fields (Node.obj [("password", Node.str "hunter2")] : Node Unit)
          none (some [""]) "******" =
        Node.obj [("password", Node.str "hunter2")]) ∧
    mask_response_fields (Node.obj [("password", Node.str "hunter2")] : Node Unit)
        none none "******" =
      Node.obj [("password", Node.str "hunter2")] :=
  ⟨⟨by decide, (c7_empty_config_identity [""] "******" (by decide) _).1⟩,
    (c7_empty_config_identity [""] "******" (by decide) _).2⟩

/-- C8: every configured substring matches only literally (regex
metacharacters such as the dot have no pattern meaning: a.c does not match
abc but does match the literal text a.c), the alternation is
case-insensitive, and among several substrings matching at one position the
earliest entry in the order given wins, not the longest match (the first
conjunct is the general leftmost-first alternation rule; the next two show
the shorter-but-earlier and longer-but-earlier alternatives winning on the
same input). -/
theorem c8_literal_escaped_leftmost_first :
    (∀ (p : String) (rest : List String) (cs : List Char),
        ciPrefix p.data cs = true → matchAt (p :: rest) cs = some p.data.length) ∧
    mask_response_fields (Node.str "abcd" : Node Unit) none (some ["ab", "abc"]) "#" =
      Node.str "#cd" ∧
    mask_response_fields (Node.str "abcd" : Node Unit) none (some ["abc", "ab"]) "#" =
      Node.str "#d" ∧
    mask_response_fields (Node.str "abc" : Node Unit) none (some ["a.c"]) "#" =
      Node.str "abc" ∧
    mask_response_fields (Node.str "xa.cy" : Node Unit) none (some ["a.c"]) "#" =
      Node.str "x#y" ∧
    mask_response_fields (Node.str "AbC" : Node Unit) none (some ["aBc"]) "#" =
      Node.str "#" :=
  ⟨matchAt_cons_of_match, rfl, rfl, rfl, rfl, rfl⟩

/-- C8 witness: the leftmost-first rule applied at a concrete position
where the first alternative matches. -/
theorem c8_literal_escaped_leftmost_first_witness :
    ciPrefix ("ab" : String).data ("abz" : String).data = true ∧
    matchAt ["ab", "b"] ("abz" : String).data = some ("ab" : String).data.length :=
  ⟨by decide, c8_literal_escaped_leftmost_first.1 "ab" ["b"] ("abz" : String).data (by decide)⟩

/-- C9: keys_to_mask is consumed only through its lower-cased membership
set: two collections with the same lower-cased contains-function (case
variants, duplicates, permutations) produce identical output on every tree. -/
theorem c9_keys_lowered_set_semantics {a : Type} (ks1 ks2 : List String)
    (vs : Option (List String)) (ph : String)
    (h : ∀ x : String, (lowerKeysOf ks1).contains x = (lowerKeysOf ks2).contains x)
    (t : Node a) :
    mask_response_fields t (some ks1) vs ph = mask_response_fields t (some ks2) vs ph := by
  rw [mask_response_fields_def, mask_response_fields_def]
  exact maskRecursive_keys_congr _ _ _ _ (fun k => h (lowerStr k)) t

/-- C9 witness: a singleton collection against a case-variant duplicated
collection whose lowered sets agree. -/
theorem c9_keys_lowered_set_semantics_witness :
    mask_response_fields
        (Node.obj [("Password", Node.str "x"), ("user", Node.str "y")] : Node Unit)
        (some ["Password"]) none "******" =
      mask_response_fields
        (Node.obj [("Password", Node.str "x"), ("user", Node.str "y")] : Node Unit)
        (some ["PASSWORD", "password"]) none "******" :=
  c9_keys_lowered_set_semantics ["Password"] ["PASSWORD", "password"] none "******"
    (by
      intro x
      show (["password"] : List String).contains x =
        (["password", "password"] : List String).contains x
      simp [List.contains_cons])
    _

/-- C10: key-based masking is triggered only by mapping keys, never by
string content: a string node whose content matches no configured value
substring is returned unchanged even when it equals a name in keys_to_mask,
at the top level, under a non-masked key, and as a sequence element. -/
theorem c10_key_names_in_string_content_untouched :
    (∀ (a : Type) (ks vs : List String) (ph s : String),
        (∀ p ∈ vs.filter (fun v => !v.isEmpty), ciOccurs p s = false) →
        mask_response_fields (Node.str s : Node a) (some ks) (some vs) ph = Node.str s) ∧
    mask_response_fields (Node.str "password" : Node Unit) (some ["password"])
        (some ["secret"]) "******" = Node.str "password" ∧
    mask_response_fields (Node.obj [("user", Node.str "password")] : Node Unit)
        (some ["password"]) (some ["secret"]) "******" =
      Node.obj [("user", Node.str "password")] ∧
    mask_response_fields (Node.arr [Node.str "password"] : Node Unit)
        (some ["password"]) (some ["secret"]) "******" =
      Node.arr [Node.str "password"] := by
  refine ⟨?_, rfl, rfl, rfl⟩
  intro a ks vs ph s hocc
  rw [mask_response_fields_def]
  show maskRecursive (lowerKeysOf ks) (buildMatcher vs) ph (Node.str s) = _
  cases hb : buildMatcher vs with
  | none => simp only [maskRecursive]
  | some pats =>
    simp only [maskRecursive]
    rw [maskString_of_no_occurrence]
    intro p hp
    exact hocc p (buildMatcher_some _ _ hb ▸ hp)

/-- C10 witness: the general conjunct applied to a string equal to a masked
key name, with the no-occurrence hypothesis discharged by evaluation. -/
theorem c10_key_names_in_string_content_untouched_witness :
    (∀ p ∈ (["secret"] : List String).filter (fun v => !v.isEmpty),
      ciOccurs p "password" = false) ∧
    mask_response_fields (Node.str "password" : Node Unit) (some ["password"])
        (some ["secret"]) "******" = Node.str "password" :=
  ⟨by decide, c10_key_names_in_string_content_untouched.1 Unit ["password"] ["secret"]
    "******" "password" (by decide)⟩

end Neurosupport
